import Mathlib

/-
Verification of the PrismDetect core against its design specification.

The definitions below are a shallow embedding of the Python sources:
  PrismDetect/core/index.py            (ProductIndex)
  PrismDetect/core/patch_scanner.py    (PatchScanner)
  PrismDetect/core/validators/shape_validator.py (ShapeValidator)
  PrismDetect/core/detector.py         (ProductDetector.detect)
  PrismDetect/core/learning/auto_learner.py      (AutoLearner)

Modelling conventions:
- numpy float32 / Python float values are embedded as exact rationals (ℚ);
- a Python function that can raise an exception is embedded as a function
  returning Option (none = the exception propagates to the caller);
- Python dicts keyed by integer uid are embedded as association lists
  List (Nat × _) in insertion order (CPython dicts preserve insertion
  order; keys produced by the monotone next_id counter are never
  re-inserted, so append models dict assignment);
- external collaborators (the CLIP encoder, cv2 aspect-ratio extraction,
  the EasyOCR text validator) are parameters of the detection pipeline,
  exactly as the spec places them outside the core (§1, §6);
- Python's stable `list.sort` is embedded as List.insertionSort, which is
  stable for the (non-strict, total) comparison relations used here.
-/

/-- Embedding of the inner per-reference metadata dict stored by
`ProductIndex.add_product` (keys `name`, `keywords`, `validation`,
`ref_id`, and for learned references `learned`, `source_confidence`,
`timestamp`).  `shape_tolerance` models `validation.get('shape_tolerance',
0.15)` (`none` = key absent); `shape_ratio` models the (normally absent)
`'shape_ratio'` key read by `detector.py` line 198; `timestamp` models the
(optional) `'timestamp'` key read by `AutoLearner._prune_if_needed`. -/
structure RefMeta where
  name : String
  keywords : List String
  shape_tolerance : Option ℚ
  shape_ratio : Option ℚ
  ref_id : String
  learned : Bool
  source_confidence : Option ℚ
  timestamp : Option Nat
deriving DecidableEq

/-- Embedding of one value of `ProductIndex.metadata` (index.py lines
78-83): `{'product_id': ..., 'shape_ratio': ..., 'metadata': ...,
'added_at': time.time()}`. -/
structure EntryMeta where
  product_id : String
  shape_ratio : ℚ
  metadata : RefMeta
  added_at : ℚ
deriving DecidableEq

/-- Embedding of the state of `ProductIndex` (index.py): the FAISS
IndexIDMap contents as (id, vector) pairs in add order, the metadata dict,
and the `next_id` counter. -/
structure ProductIndex where
  dimension : Nat
  vectors : List (Nat × List ℚ)
  metadata : List (Nat × EntryMeta)
  next_id : Nat
deriving DecidableEq

/-- The `size` property (index.py lines 41-44): `self.index.ntotal`. -/
def ProductIndex.size (s : ProductIndex) : Nat := s.vectors.length

/-- Embedding of `ProductIndex.add_product` (index.py lines 46-86).
The uid is taken from `next_id` and the counter is incremented *before*
the FAISS `add_with_ids` call; that call raises (the faiss python wrapper
asserts the vector dimension equals the index dimension) when the
embedding length differs from the configured dimension, in which case the
metadata store is not reached.  The first component is the returned uid
(`none` = the faiss assertion error propagates to the caller); the second
component is the state of the index after the call, on both paths.
`now` stands for `time.time()`. -/
def ProductIndex.add_product (s : ProductIndex) (product_id : String)
    (embedding : List ℚ) (shape_ratio : ℚ) (md : RefMeta) (now : ℚ) :
    Option Nat × ProductIndex :=
  let uid := s.next_id
  let s1 : ProductIndex := { s with next_id := s.next_id + 1 }
  if embedding.length = s.dimension then
    (some uid,
     { s1 with
        vectors := s1.vectors ++ [(uid, embedding)],
        metadata := s1.metadata ++ [(uid, ⟨product_id, shape_ratio, md, now⟩)] })
  else
    (none, s1)

/-- Embedding of one element of the list returned by
`ProductIndex.search` (index.py lines 119-125). -/
structure SearchResult where
  product_id : String
  similarity : ℚ
  metadata : RefMeta
  shape_ratio : ℚ
  index_id : Nat
deriving DecidableEq

/-- Inner product of two embeddings, the similarity computed by the
`IndexFlatIP` FAISS index. -/
def dot (a b : List ℚ) : ℚ := (List.zipWith (· * ·) a b).sum

/-- Embedding of `ProductIndex.search` (index.py lines 88-127).  An empty
index returns `[]` before any FAISS call.  Otherwise `k` is clamped to
the current size and the FAISS exact search returns the `min k size`
stored (score, id) pairs with the largest inner products, in descending
score order (embedded as a stable sort of all scored pairs followed by
`take`); a query whose length differs from the index dimension makes the
FAISS call raise (`none`).  Results keep only ids present in the metadata
dict (the `idx != -1` guard of line 117 is vacuous here because the
clamped exact search never pads with -1). -/
def ProductIndex.search (s : ProductIndex) (embedding : List ℚ) (k : Nat) :
    Option (List SearchResult) :=
  if s.size = 0 then
    some []
  else if embedding.length ≠ s.dimension then
    none
  else
    let scored := s.vectors.map (fun p => ((dot embedding p.2 : ℚ), p.1))
    let top := (List.insertionSort (fun a b : ℚ × Nat => b.1 ≤ a.1) scored).take (min k s.size)
    some (top.filterMap (fun p =>
      (s.metadata.lookup p.2).map (fun e =>
        { product_id := e.product_id, similarity := p.1, metadata := e.metadata,
          shape_ratio := e.shape_ratio, index_id := p.2 })))

/-- Embedding of `ProductIndex.remove_product` (index.py lines 129-147).
`faiss.IndexIDMap.remove_ids` removes every stored vector with the given
id and does not raise when the id is unknown (it merely removes zero
vectors), so the `except` branch of lines 145-147 is unreachable for a
mere unknown id and the function returns True on every input, deleting
the metadata entry when present. -/
def ProductIndex.remove_product (s : ProductIndex) (index_id : Nat) :
    Bool × ProductIndex :=
  (true,
   { s with
      vectors := s.vectors.filter (fun p => p.1 ≠ index_id),
      metadata := s.metadata.filter (fun p => p.1 ≠ index_id) })

/-- The two co-located persistence artifacts (spec §6): the FAISS index
file and the pickle file holding `{metadata, next_id}`.  `none` = the
file does not exist on disk. -/
structure Disk where
  faiss_file : Option (List (Nat × List ℚ))
  pkl_file : Option (List (Nat × EntryMeta) × Nat)
deriving DecidableEq

/-- Embedding of `ProductIndex.save` (index.py lines 149-166), happy
path: both files are written from the in-memory state. -/
def ProductIndex.save (s : ProductIndex) : Disk :=
  { faiss_file := some s.vectors, pkl_file := some (s.metadata, s.next_id) }

/-- Embedding of `ProductIndex._load` (index.py lines 168-186), happy
path: each file replaces the corresponding in-memory component when it
exists on disk. -/
def ProductIndex.load_from (s : ProductIndex) (d : Disk) : ProductIndex :=
  let s1 : ProductIndex :=
    match d.faiss_file with
    | some v => { s with vectors := v }
    | none => s
  match d.pkl_file with
  | some md => { s1 with metadata := md.1, next_id := md.2 }
  | none => s1

/-- Embedding of the `ProductIndex.__init__` constructor (index.py lines
16-39): a fresh empty index of the given dimension, followed by
`_load()` from the files at the configured path. -/
def freshIndex (dimension : Nat) (d : Disk) : ProductIndex :=
  ProductIndex.load_from
    { dimension := dimension, vectors := [], metadata := [], next_id := 0 } d

/-- Number of IndexEntries recorded for one product (the count taken by
`AutoLearner._prune_if_needed`, auto_learner.py lines 118-122). -/
def ProductIndex.countFor (s : ProductIndex) (product_id : String) : Nat :=
  (s.metadata.filter (fun p => p.2.product_id = product_id)).length

/- ------------------------------------------------------------------ -/
/- Claims C1, C2, C3: ProductIndex add / remove / persistence          -/
/- ------------------------------------------------------------------ -/

/-- A concrete two-dimensional empty index used as a test input. -/
def testIdx : ProductIndex :=
  { dimension := 2, vectors := [], metadata := [], next_id := 0 }

/-- A concrete metadata record used as a test input. -/
def testMeta : RefMeta :=
  { name := "n", keywords := [], shape_tolerance := none, shape_ratio := none,
    ref_id := "r", learned := false, source_confidence := none, timestamp := none }

/-- Claim C1, counterexample: adding a length-1 embedding to a fresh
dimension-2 index fails (as the claim states), but the `next_id` counter
has changed from 0 to 1, so the index state is not "unchanged from before
the call" as the claim asserts. -/
theorem C1_counterexample :
    (testIdx.add_product "p" [1] 1 testMeta 0).1 = none ∧
    (testIdx.add_product "p" [1] 1 testMeta 0).2.next_id ≠ testIdx.next_id := by
  constructor
  · rfl
  · decide

/-- Claim C1 (amended): a call to `add_product` with an embedding whose
length differs from the configured dimension fails with the dimension
mismatch reported to the immediate caller, and `ntotal` and the metadata
map are unchanged — but the `next_id` counter has been incremented by
one (it is bumped before the failing FAISS add), so it is not unchanged. -/
theorem C1_add_product_dim_mismatch (s : ProductIndex) (pid : String)
    (emb : List ℚ) (ratio : ℚ) (md : RefMeta) (now : ℚ)
    (hdim : emb.length ≠ s.dimension) :
    (s.add_product pid emb ratio md now).1 = none ∧
    (s.add_product pid emb ratio md now).2.size = s.size ∧
    (s.add_product pid emb ratio md now).2.metadata = s.metadata ∧
    (s.add_product pid emb ratio md now).2.next_id = s.next_id + 1 := by
  simp [ProductIndex.add_product, ProductIndex.size, hdim]

/-- Claim C1, witness: the amended statement evaluated on the concrete
mismatching add of `C1_counterexample`. -/
theorem C1_witness :
    (testIdx.add_product "p" [1] 1 testMeta 0).1 = none ∧
    (testIdx.add_product "p" [1] 1 testMeta 0).2.size = testIdx.size ∧
    (testIdx.add_product "p" [1] 1 testMeta 0).2.metadata = testIdx.metadata ∧
    (testIdx.add_product "p" [1] 1 testMeta 0).2.next_id = testIdx.next_id + 1 :=
  C1_add_product_dim_mismatch testIdx "p" [1] 1 testMeta 0 (by decide)

/-- List.lookup of a key is `none` after filtering that key out. -/
theorem lookup_filter_ne {β : Type} (l : List (Nat × β)) (k : Nat) :
    (l.filter (fun p => p.1 ≠ k)).lookup k = none := by
  induction l with
  | nil => rfl
  | cons a t ih =>
    by_cases h : a.1 = k
    · simpa [List.filter_cons, h] using ih
    · have hk : (k == a.1) = false := beq_eq_false_iff_ne.mpr (Ne.symm h)
      simpa [List.filter_cons, h, List.lookup, hk] using ih

/-- Claim C2, counterexample: removing uid 5, which is present in
neither the vector store nor the metadata of the empty index, returns
True — not False as the claim states. -/
theorem C2_counterexample :
    5 ∉ testIdx.vectors.map Prod.fst ∧
    5 ∉ testIdx.metadata.map Prod.fst ∧
    (testIdx.remove_product 5).1 = true := by
  refine ⟨by decide, by decide, rfl⟩

/-- Claim C2 (amended): `remove_product` returns True on every input
(the exception branch is unreachable for a mere unknown uid, so an absent
uid is a no-op that still returns True, not False); for a present uid it
removes the stored vector and the metadata entry together, so that
afterwards neither is reachable under that uid. -/
theorem C2_remove_product (s : ProductIndex) (uid : Nat) :
    (s.remove_product uid).1 = true ∧
    (s.remove_product uid).2.vectors = s.vectors.filter (fun p => p.1 ≠ uid) ∧
    (s.remove_product uid).2.metadata = s.metadata.filter (fun p => p.1 ≠ uid) ∧
    uid ∉ (s.remove_product uid).2.vectors.map Prod.fst ∧
    (s.remove_product uid).2.metadata.lookup uid = none := by
  refine ⟨rfl, rfl, rfl, ?_, lookup_filter_ne _ _⟩
  simp [ProductIndex.remove_product, List.mem_map, List.mem_filter]

/-- Claim C3: saving an index and restoring from the written files into a
fresh index of the same configured dimension reproduces the uid→vector
store, the uid→metadata map, and the `next_id` counter exactly. -/
theorem C3_save_restore_roundtrip (s : ProductIndex) :
    (freshIndex s.dimension s.save).vectors = s.vectors ∧
    (freshIndex s.dimension s.save).metadata = s.metadata ∧
    (freshIndex s.dimension s.save).next_id = s.next_id := by
  simp [freshIndex, ProductIndex.save, ProductIndex.load_from]

/- ------------------------------------------------------------------ -/
/- Claim C4: search ordering                                           -/
/- ------------------------------------------------------------------ -/

/-- Claim C4: an empty index returns the empty list without error
(before any FAISS call); and whenever `search` returns (it raises only
on a dimension mismatch of a non-empty index), the result list is
ordered by descending similarity with at most `min k size` entries. -/
theorem C4_search_sorted (s : ProductIndex) (emb : List ℚ) (k : Nat) :
    (s.size = 0 → s.search emb k = some []) ∧
    ∀ res, s.search emb k = some res →
      res.Pairwise (fun a b => b.similarity ≤ a.similarity) ∧
      res.length ≤ min k s.size := by
  constructor
  · intro h0
    unfold ProductIndex.search
    rw [if_pos h0]
  intro res h
  unfold ProductIndex.search at h
  by_cases h0 : s.size = 0
  · rw [if_pos h0] at h
    obtain rfl : ([] : List SearchResult) = res := Option.some.inj h
    simp
  · rw [if_neg h0] at h
    by_cases hd : emb.length ≠ s.dimension
    · rw [if_pos hd] at h
      exact absurd h (by simp)
    · rw [if_neg hd] at h
      obtain rfl := (Option.some.inj h).symm
      haveI instTot : IsTotal (ℚ × Nat) (fun a b => b.1 ≤ a.1) :=
        ⟨fun a b => (le_total b.1 a.1)⟩
      haveI instTrans : IsTrans (ℚ × Nat) (fun a b => b.1 ≤ a.1) :=
        ⟨fun _ _ _ hab hbc => le_trans hbc hab⟩
      have hsorted := List.sorted_insertionSort (fun a b : ℚ × Nat => b.1 ≤ a.1)
        (s.vectors.map (fun p => ((dot emb p.2 : ℚ), p.1)))
      have htake : (((List.insertionSort (fun a b : ℚ × Nat => b.1 ≤ a.1)
          (s.vectors.map (fun p => ((dot emb p.2 : ℚ), p.1)))).take (min k s.size))).Pairwise
          (fun a b : ℚ × Nat => b.1 ≤ a.1) :=
        List.Pairwise.sublist (List.take_sublist _ _) hsorted
      refine ⟨?_, ?_⟩
      · rw [List.pairwise_filterMap]
        refine htake.imp ?_
        intro a b hab r hr r' hr'
        simp only [Option.map_eq_some', Option.mem_def] at hr hr'
        obtain ⟨ea, -, rfl⟩ := hr
        obtain ⟨eb, -, rfl⟩ := hr'
        exact hab
      · have hlen1 : (((List.insertionSort (fun a b : ℚ × Nat => b.1 ≤ a.1)
            (s.vectors.map (fun p => ((dot emb p.2 : ℚ), p.1)))).take (min k s.size))).length ≤
            min k s.size := by
          rw [List.length_take]
          exact min_le_left _ _
        exact le_trans (List.length_filterMap_le _ _) hlen1

/-- A concrete two-entry index used to witness C4: orthogonal unit
vectors for products A and B. -/
def c4Idx : ProductIndex :=
  { dimension := 2,
    vectors := [(0, [1, 0]), (1, [0, 1])],
    metadata := [(0, ⟨"A", 1, testMeta, 0⟩), (1, ⟨"B", 1, testMeta, 0⟩)],
    next_id := 2 }

/-- The expected search result for the C4 witness query. -/
def c4Res : List SearchResult :=
  [{ product_id := "A", similarity := 1, metadata := testMeta, shape_ratio := 1, index_id := 0 },
   { product_id := "B", similarity := 0, metadata := testMeta, shape_ratio := 1, index_id := 1 }]

/-- Claim C4, witness: searching the concrete two-entry index with query
(1,0) and k = 2 returns A (similarity 1) before B (similarity 0), and
the theorem's conclusions evaluate on this call. -/
theorem C4_witness :
    c4Idx.search [1, 0] 2 = some c4Res ∧
    c4Res.Pairwise (fun a b => b.similarity ≤ a.similarity) ∧
    c4Res.length ≤ min 2 c4Idx.size := by
  have h : c4Idx.search [1, 0] 2 = some c4Res := by
    norm_num [ProductIndex.search, ProductIndex.size, c4Idx, c4Res, dot,
      List.insertionSort, List.orderedInsert, List.lookup, List.filterMap]
    rfl
  exact ⟨h, ((C4_search_sorted c4Idx [1, 0] 2).2 c4Res h).1,
    ((C4_search_sorted c4Idx [1, 0] 2).2 c4Res h).2⟩

/- ------------------------------------------------------------------ -/
/- Claim C5: PatchScanner base grid                                    -/
/- ------------------------------------------------------------------ -/

/-- Embedding of Python `range(0, stop, step)` for positive `step`: the
multiples of `step` below `stop`. -/
def rangeStep (stop step : Nat) : List Nat :=
  if stop = 0 then [] else (List.range ((stop - 1) / step + 1)).map (fun i => i * step)

/-- A bounding box in source-image pixel coordinates, as the (x, y, w, h)
tuples produced by `PatchScanner.scan` and clamped by the detector. -/
structure BBox where
  x : Int
  y : Int
  w : Int
  h : Int
deriving DecidableEq

/-- Embedding of the regular base grid of `PatchScanner.scan`
(patch_scanner.py lines 50-58): square `patch_size` windows at positions
`range(0, h - patch_size + 1, stride) × range(0, w - patch_size + 1,
stride)`.  (With Nat truncation `h - patch_size + 1 = 1` when the image
is smaller than the patch, matching the edge-replicate padding of lines
38-48 which grows such an image to exactly `patch_size`.) -/
def PatchScanner.baseGrid (h w patch_size stride : Nat) : List BBox :=
  (rangeStep (h - patch_size + 1) stride).flatMap (fun (y : Nat) =>
    (rangeStep (w - patch_size + 1) stride).map (fun (x : Nat) =>
      ⟨(x : Int), (y : Int), (patch_size : Int), (patch_size : Int)⟩))

/-- Whether pixel (px, py) lies inside the bounding box. -/
def coversPixel (b : BBox) (px py : Int) : Bool :=
  decide (b.x ≤ px) && decide (px < b.x + b.w) &&
  decide (b.y ≤ py) && decide (py < b.y + b.h)

/-- Whether some box of the list contains pixel (px, py). -/
def coveredBy (grid : List BBox) (px py : Int) : Bool :=
  grid.any (fun b => coversPixel b px py)

/-- Membership in a `rangeStep` list: exactly the multiples `i * step`
with `i ≤ (stop - 1) / step`. -/
theorem mem_rangeStep {stop step x : Nat} (h : stop ≠ 0) :
    x ∈ rangeStep stop step ↔ ∃ i, i ≤ (stop - 1) / step ∧ x = i * step := by
  simp only [rangeStep, if_neg h, List.mem_map, List.mem_range, Nat.lt_succ_iff]
  constructor
  · rintro ⟨i, hi, rfl⟩
    exact ⟨i, hi, rfl⟩
  · rintro ⟨i, hi, rfl⟩
    exact ⟨i, hi, rfl⟩

/-- Membership in the base grid, in terms of the grid step indices. -/
theorem mem_baseGrid {h w ps stride : Nat} {b : BBox} :
    b ∈ PatchScanner.baseGrid h w ps stride ↔
      ∃ i j, i ≤ (h - ps) / stride ∧ j ≤ (w - ps) / stride ∧
        b = ⟨((j * stride : Nat) : Int), ((i * stride : Nat) : Int), (ps : Int), (ps : Int)⟩ := by
  have hh : h - ps + 1 ≠ 0 := by omega
  have hw : w - ps + 1 ≠ 0 := by omega
  have hh1 : h - ps + 1 - 1 = h - ps := by omega
  have hw1 : w - ps + 1 - 1 = w - ps := by omega
  constructor
  · intro hb
    unfold PatchScanner.baseGrid at hb
    obtain ⟨y0, hy, hb2⟩ := List.mem_flatMap.mp hb
    obtain ⟨x0, hx, rfl⟩ := List.mem_map.mp hb2
    obtain ⟨i, hi, rfl⟩ := (mem_rangeStep hh).mp hy
    obtain ⟨j, hj, rfl⟩ := (mem_rangeStep hw).mp hx
    rw [hh1] at hi
    rw [hw1] at hj
    exact ⟨i, j, hi, hj, rfl⟩
  · rintro ⟨i, j, hi, hj, rfl⟩
    unfold PatchScanner.baseGrid
    refine List.mem_flatMap.mpr ⟨i * stride,
      (mem_rangeStep hh).mpr ⟨i, by simpa using hi, rfl⟩, ?_⟩
    exact List.mem_map.mpr ⟨j * stride,
      (mem_rangeStep hw).mpr ⟨j, by simpa using hj, rfl⟩, rfl⟩

/-- One-dimensional coverage of the grid positions, over Nat: a
coordinate is inside some window `[i*stride, i*stride + ps)` with
`i ≤ M` iff it is below `M * stride + ps`, provided `stride ≤ ps`
(adjacent windows overlap or abut). -/
theorem gridCovers1dNat (M ps stride q : Nat) (hstride : 0 < stride)
    (hsp : stride ≤ ps) :
    (∃ i, i ≤ M ∧ i * stride ≤ q ∧ q < i * stride + ps) ↔
      q < M * stride + ps := by
  constructor
  · rintro ⟨i, hi, _, hq⟩
    exact lt_of_lt_of_le hq (Nat.add_le_add_right (Nat.mul_le_mul_right _ hi) _)
  · intro hq
    by_cases hc : q / stride ≤ M
    · refine ⟨q / stride, hc, Nat.div_mul_le_self q stride, ?_⟩
      have h2 : q % stride < stride := Nat.mod_lt q hstride
      have h1 : stride * (q / stride) + q % stride = q := Nat.div_add_mod q stride
      calc q = q / stride * stride + q % stride := by
              rw [Nat.mul_comm (q / stride) stride]; omega
        _ < q / stride * stride + ps := Nat.add_lt_add_left (lt_of_lt_of_le h2 hsp) _
    · push_neg at hc
      refine ⟨M, le_rfl, ?_, hq⟩
      calc M * stride ≤ M * stride + stride := Nat.le_add_right _ _
        _ = (M + 1) * stride := (Nat.succ_mul M stride).symm
        _ ≤ q / stride * stride := Nat.mul_le_mul_right _ hc
        _ ≤ q := Nat.div_mul_le_self q stride

/-- One-dimensional coverage lifted to Int pixel coordinates. -/
theorem gridCovers1dInt (M ps stride : Nat) (px : Int) (hstride : 0 < stride)
    (hsp : stride ≤ ps) :
    (∃ j, j ≤ M ∧ ((j * stride : Nat) : Int) ≤ px ∧
        px < ((j * stride : Nat) : Int) + (ps : Int)) ↔
      (0 ≤ px ∧ px < ((ps + stride * M : Nat) : Int)) := by
  have hcomm : ps + stride * M = M * stride + ps := by
    rw [Nat.mul_comm stride M]; omega
  rw [hcomm]
  constructor
  · rintro ⟨j, hj, h1, h2⟩
    have h0 : (0 : Int) ≤ px := le_trans (by positivity) h1
    have hq : ∃ i, i ≤ M ∧ i * stride ≤ px.toNat ∧ px.toNat < i * stride + ps :=
      ⟨j, hj, by omega, by omega⟩
    have hend := (gridCovers1dNat M ps stride px.toNat hstride hsp).mp hq
    exact ⟨h0, by omega⟩
  · rintro ⟨h0, h1⟩
    obtain ⟨i, hi, ha, hb⟩ :=
      (gridCovers1dNat M ps stride px.toNat hstride hsp).mpr (by omega)
    exact ⟨i, hi, by omega, by omega⟩

/-- Claim C5, counterexample: for a 300×300 image with patch_size 224 and
stride 112 (the spec's own scenario configuration), the base grid is the
single window (0,0,224,224): pixel (250,250) lies in no base-grid patch,
so the grid does not cover the full image extent and no clipped trailing
row/column window exists. -/
theorem C5_counterexample :
    224 ≤ 300 ∧
    PatchScanner.baseGrid 300 300 224 112 = [⟨0, 0, 224, 224⟩] ∧
    coveredBy (PatchScanner.baseGrid 300 300 224 112) 250 250 = false := by
  refine ⟨by norm_num, by decide, by decide⟩

/-- Claim C5 (amended): the base grid consists of the square
`patch_size` windows at multiples of `stride` that fit entirely inside
the image; a trailing partial row or column is omitted, not clipped.
Consequently (for overlapping windows, `stride ≤ patch_size`) a pixel is
covered by some base-grid patch iff each coordinate is below
`patch_size + stride * ⌊(extent - patch_size) / stride⌋` — the full
extent is covered only when `stride` divides `extent - patch_size`. -/
theorem C5_base_grid_coverage (h w ps stride : Nat) (px py : Int)
    (hstride : 0 < stride) (hsp : stride ≤ ps) :
    coveredBy (PatchScanner.baseGrid h w ps stride) px py = true ↔
      (0 ≤ px ∧ px < ((ps + stride * ((w - ps) / stride) : Nat) : Int) ∧
       0 ≤ py ∧ py < ((ps + stride * ((h - ps) / stride) : Nat) : Int)) := by
  have hsplit : coveredBy (PatchScanner.baseGrid h w ps stride) px py = true ↔
      ((∃ j, j ≤ (w - ps) / stride ∧ ((j * stride : Nat) : Int) ≤ px ∧
          px < ((j * stride : Nat) : Int) + (ps : Int)) ∧
       (∃ i, i ≤ (h - ps) / stride ∧ ((i * stride : Nat) : Int) ≤ py ∧
          py < ((i * stride : Nat) : Int) + (ps : Int))) := by
    simp only [coveredBy, List.any_eq_true]
    constructor
    · rintro ⟨b, hb, hcov⟩
      obtain ⟨i, j, hi, hj, rfl⟩ := mem_baseGrid.mp hb
      simp only [coversPixel, Bool.and_eq_true, decide_eq_true_eq] at hcov
      exact ⟨⟨j, hj, hcov.1.1.1, hcov.1.1.2⟩, ⟨i, hi, hcov.1.2, hcov.2⟩⟩
    · rintro ⟨⟨j, hj, hxa, hxb⟩, ⟨i, hi, hya, hyb⟩⟩
      refine ⟨⟨((j * stride : Nat) : Int), ((i * stride : Nat) : Int), (ps : Int), (ps : Int)⟩,
        mem_baseGrid.mpr ⟨i, j, hi, hj, rfl⟩, ?_⟩
      simp only [coversPixel, Bool.and_eq_true, decide_eq_true_eq]
      exact ⟨⟨⟨hxa, hxb⟩, hya⟩, hyb⟩
  rw [hsplit, gridCovers1dInt _ _ _ _ hstride hsp, gridCovers1dInt _ _ _ _ hstride hsp]
  tauto

/-- Claim C5, witness: the amended coverage equivalence evaluated on the
300×300 scenario: pixel (100,100) is below the covered bound
224 + 112*0 in both axes, hence covered by the base grid. -/
theorem C5_witness :
    coveredBy (PatchScanner.baseGrid 300 300 224 112) 100 100 = true :=
  (C5_base_grid_coverage 300 300 224 112 100 100 (by norm_num) (by norm_num)).mpr
    (by norm_num)

/- ------------------------------------------------------------------ -/
/- Claim C9: ShapeValidator.validate                                   -/
/- ------------------------------------------------------------------ -/

/-- Embedding of `ShapeValidator.validate` (shape_validator.py lines
54-79): pass automatically when the expected ratio is ≤ 0, otherwise
pass iff the actual ratio lies in the inclusive band
`[expected*(1 - tolerance), expected*(1 + tolerance)]`. -/
def ShapeValidator.validate (actual_ratio expected_ratio tolerance : ℚ) : Bool :=
  if expected_ratio ≤ 0 then
    true
  else
    let min_ratio := expected_ratio * (1 - tolerance)
    let max_ratio := expected_ratio * (1 + tolerance)
    decide (min_ratio ≤ actual_ratio ∧ actual_ratio ≤ max_ratio)

/-- Claim C9: `validate` returns true exactly when the expected ratio is
≤ 0 (no constraint) or the actual ratio lies within the inclusive
tolerance band; both boundary points accept and anything beyond them
rejects. -/
theorem C9_validate_iff (actual expected tolerance : ℚ) :
    ShapeValidator.validate actual expected tolerance = true ↔
      (expected ≤ 0 ∨
        (expected * (1 - tolerance) ≤ actual ∧ actual ≤ expected * (1 + tolerance))) := by
  by_cases he : expected ≤ 0 <;> simp [ShapeValidator.validate, he]

/- ------------------------------------------------------------------ -/
/- Detector pipeline (detector.py, ProductDetector.detect)             -/
/- ------------------------------------------------------------------ -/

/-- Embedding of one entry of `pre_nms_candidates` (detector.py lines
210-218).  `P` is the type of sub-image patches, opaque to the core. -/
structure Candidate (P : Type) where
  product_id : String
  product_name : String
  confidence : ℚ
  bbox : BBox
  shape_valid : Bool
  keywords : List String
  patch : P
deriving DecidableEq

/-- Embedding of the `DetectionResult` dataclass (detector.py lines
22-51); `processing_ms` is wall-clock time and carries no logical
content, so it is omitted from the model. -/
structure DetectionResult where
  product_id : String
  product_name : String
  confidence : ℚ
  bbox : BBox
  text_verified : Bool
  shape_valid : Bool
  matched_keywords : List String
deriving DecidableEq

/-- The external collaborators used by `detect`, per spec §1/§6 outside
the core: the CLIP encoder (`encode`, `none` = the encode call raises and
the region is skipped), the cv2 aspect-ratio extraction
(`ShapeValidator.get_aspect_ratio` on a patch), and the EasyOCR text
check (`TextValidator.validate` on the clamped sub-image determined by a
bbox of the fixed input image, returning (text_verified,
matched_keywords); a raising OCR call is the pair (false, [])). -/
structure DetectEnv (P : Type) where
  encode : P → Option (List ℚ)
  aspect : P → ℚ
  ocr : BBox → List String → Bool × List String

/-- Embedding of the per-match body of the search loop (detector.py
lines 188-218): drop the match when its raw similarity is below
`min_confidence`; otherwise scale by 1.18 capped at 1, shape-validate
against `metadata.get('shape_ratio', actual_ratio)` with
`validation.get('shape_tolerance', 0.15)`, add 0.02 (capped at 1) when
shape-valid, and record a candidate. -/
def processMatch {P : Type} (env : DetectEnv P) (min_confidence : ℚ)
    (patch : P) (bbox : BBox) (m : SearchResult) : Option (Candidate P) :=
  if m.similarity < min_confidence then
    none
  else
    let scaled0 : ℚ := min 1 (m.similarity * 1.18)
    let actual_ratio := env.aspect patch
    let expected_ratio := m.metadata.shape_ratio.getD actual_ratio
    let tolerance := m.metadata.shape_tolerance.getD 0.15
    let shape_valid := ShapeValidator.validate actual_ratio expected_ratio tolerance
    let scaled : ℚ := if shape_valid then min 1 (scaled0 + 0.02) else scaled0
    some ⟨m.product_id, m.metadata.name, scaled, bbox, shape_valid,
          m.metadata.keywords, patch⟩

/-- Embedding of stages 2-4 of `detect` (detector.py lines 174-218):
for each scanned (patch, bbox), encode it (a raising encoder skips the
region), search the index with k = 3 (a raising search aborts the call),
and accumulate the surviving candidates in order. -/
def scanCandidates {P : Type} (env : DetectEnv P) (s : ProductIndex)
    (min_confidence : ℚ) : List (P × BBox) → Option (List (Candidate P))
  | [] => some []
  | (patch, bbox) :: rest =>
    match env.encode patch with
    | none => scanCandidates env s min_confidence rest
    | some embedding =>
      match s.search embedding 3 with
      | none => none
      | some found =>
        (scanCandidates env s min_confidence rest).map
          (fun tail =>
            found.filterMap (processMatch env min_confidence patch bbox) ++ tail)

/-- Embedding of one cluster record (detector.py lines 262-269). -/
structure Cluster where
  product_id : String
  product_name : String
  confidence : ℚ
  bbox : BBox
  shape_valid : Bool
  keywords : List String
deriving DecidableEq

/-- Embedding of the overlap test of detector.py lines 240-245: the
rectangle intersection has positive area. -/
def bboxOverlap (a b : BBox) : Bool :=
  decide (max a.x b.x < min (a.x + a.w) (b.x + b.w)) &&
  decide (max a.y b.y < min (a.y + a.h) (b.y + b.h))

/-- Embedding of the cluster-bounds expansion of detector.py lines
252-257: the union (min of mins, max of maxes) of the two boxes. -/
def unionBBox (a b : BBox) : BBox :=
  ⟨min a.x b.x, min a.y b.y,
   max (a.x + a.w) (b.x + b.w) - min a.x b.x,
   max (a.y + a.h) (b.y + b.h) - min a.y b.y⟩

/-- A fresh cluster seeded from one candidate (detector.py lines
260-269). -/
def newCluster {P : Type} (c : Candidate P) : Cluster :=
  ⟨c.product_id, c.product_name, c.confidence, c.bbox, c.shape_valid, c.keywords⟩

/-- Embedding of one iteration of the clustering loop (detector.py lines
232-269): the candidate merges into the first overlapping cluster
(expanding its bbox and raising its confidence to the max), or starts a
new cluster at the end of the list. -/
def insertCandidate {P : Type} (c : Candidate P) : List Cluster → List Cluster
  | [] => [newCluster c]
  | cl :: rest =>
    if bboxOverlap c.bbox cl.bbox then
      { cl with bbox := unionBBox cl.bbox c.bbox,
                confidence := max cl.confidence c.confidence } :: rest
    else
      cl :: insertCandidate c rest

/-- Embedding of the full greedy clustering of one product group
(detector.py lines 230-269). -/
def buildClusters {P : Type} (cands : List (Candidate P)) : List Cluster :=
  cands.foldl (fun cls c => insertCandidate c cls) []

/-- First occurrences, in order, of the product ids of a candidate list:
the iteration order of the `defaultdict` groups of detector.py lines
221-224. -/
def firstDedup : List String → List String
  | [] => []
  | k :: rest => k :: (firstDedup rest).filter (fun k2 => k2 ≠ k)

/-- Embedding of the per-product tail of `detect` (detector.py lines
228-324): cluster the group, sort clusters by descending confidence,
keep the single best cluster, clamp its bbox to the image (W × H), gate
the OCR call on non-zero clamped area, a non-empty keyword list, and
(shape_valid or confidence > 0.9), add 0.05 (capped at 1) on a text
match, and emit the DetectionResult. -/
def processGroup {P : Type} (env : DetectEnv P) (W H : Int)
    (cands : List (Candidate P)) : Option DetectionResult :=
  match List.insertionSort
      (fun a b : Cluster => b.confidence ≤ a.confidence) (buildClusters cands) with
  | [] => none
  | best :: _ =>
    let x := max 0 best.bbox.x
    let y := max 0 best.bbox.y
    let w := min best.bbox.w (W - x)
    let h := min best.bbox.h (H - y)
    let clamped : BBox := ⟨x, y, w, h⟩
    let gate := decide (0 < w) && decide (0 < h) && !(best.keywords.isEmpty) &&
      (best.shape_valid || decide ((0.9 : ℚ) < best.confidence))
    let ocr_res := if gate then env.ocr clamped best.keywords else (false, [])
    let final_confidence : ℚ :=
      if ocr_res.1 then min 1 (best.confidence + 0.05) else best.confidence
    some ⟨best.product_id, best.product_name, final_confidence, clamped,
          ocr_res.1, best.shape_valid, ocr_res.2⟩

/-- Embedding of the grouping and emission of `detect` (detector.py
lines 220-324): group candidates by product id in first-appearance
order and emit at most one DetectionResult per group. -/
def fuse {P : Type} (env : DetectEnv P) (W H : Int)
    (cands : List (Candidate P)) : List DetectionResult :=
  (firstDedup (cands.map (fun c => c.product_id))).filterMap
    (fun pid => processGroup env W H (cands.filter (fun c => c.product_id = pid)))

/-- Embedding of `ProductDetector.detect` (detector.py lines 150-339)
from stage 2 on, over the scanned (patch, bbox) list: candidate
collection followed by fusion.  (The auto-learn pass of lines 326-335
mutates only the index, not the returned list.) -/
def ProductDetector.detect {P : Type} (env : DetectEnv P) (s : ProductIndex)
    (W H : Int) (min_confidence : ℚ) (patches : List (P × BBox)) :
    Option (List DetectionResult) :=
  (scanCandidates env s min_confidence patches).map (fuse env W H)

/- ------------------------------------------------------------------ -/
/- AutoLearner (auto_learner.py)                                       -/
/- ------------------------------------------------------------------ -/

/-- Embedding of `AutoLearner.should_learn` (auto_learner.py lines
36-48). -/
def AutoLearner.should_learn (enabled : Bool) (threshold : ℚ)
    (d : DetectionResult) : Bool :=
  enabled && decide (threshold ≤ d.confidence) && d.text_verified

/-- The sorting key of `AutoLearner._prune_if_needed` (auto_learner.py
line 126): `meta.get('metadata', {}).get('timestamp', 0)`. -/
def entryTimestamp (p : Nat × EntryMeta) : Nat := p.2.metadata.timestamp.getD 0

/-- The removal loop of `AutoLearner._prune_if_needed` (auto_learner.py
lines 130-133): remove each uid in turn. -/
def removeAll (s : ProductIndex) : List Nat → ProductIndex
  | [] => s
  | uid :: rest => removeAll (s.remove_product uid).2 rest

/-- The entries `AutoLearner._prune_if_needed` selects for removal
(auto_learner.py lines 118-131): when the product's entry count exceeds
the cap, the first `count - max_refs` entries of the stable
ascending-timestamp sort of its entries; otherwise none. -/
def AutoLearner.pruneList (max_refs : Nat) (product_id : String)
    (s : ProductIndex) : List (Nat × EntryMeta) :=
  let refs := s.metadata.filter (fun p => p.2.product_id = product_id)
  if max_refs < refs.length then
    (List.insertionSort (fun a b => entryTimestamp a ≤ entryTimestamp b) refs).take
      (refs.length - max_refs)
  else
    []

/-- Embedding of `AutoLearner._prune_if_needed` (auto_learner.py lines
110-133). -/
def AutoLearner.prune_if_needed (max_refs : Nat) (product_id : String)
    (s : ProductIndex) : ProductIndex :=
  removeAll s ((AutoLearner.pruneList max_refs product_id s).map (fun p => p.1))

/-- The metadata dict written by `AutoLearner.learn` (auto_learner.py
lines 84-92): empty keywords, empty validation config, `learned = True`,
the detection's confidence, and the learn timestamp. -/
def AutoLearner.learnMeta (product_name : String) (source_confidence : ℚ)
    (timestamp : Nat) : RefMeta :=
  { name := product_name, keywords := [], shape_tolerance := none,
    shape_ratio := none, ref_id := "auto", learned := true,
    source_confidence := some source_confidence, timestamp := some timestamp }

/-- Embedding of `AutoLearner.learn` (auto_learner.py lines 50-108):
add the new reference to the index (embedding and shape ratio come from
the external encoder and cv2), then prune; a raising add is caught and
returns False without pruning (the index keeps the state the failed add
left behind). -/
def AutoLearner.learn (max_refs : Nat) (s : ProductIndex)
    (d : DetectionResult) (embedding : List ℚ) (shape_ratio : ℚ)
    (timestamp : Nat) (now : ℚ) : Bool × ProductIndex :=
  match s.add_product d.product_id embedding shape_ratio
      (AutoLearner.learnMeta d.product_name d.confidence timestamp) now with
  | (some _, s1) => (true, AutoLearner.prune_if_needed max_refs d.product_id s1)
  | (none, s1) => (false, s1)

/- ------------------------------------------------------------------ -/
/- Claim C6: confidence scaling                                        -/
/- ------------------------------------------------------------------ -/

/-- Claim C6: every candidate surviving the similarity filter gets
confidence min(1, raw × 1.18), plus 0.02 capped at 1 exactly when shape
validation passed. -/
theorem C6_confidence_formula {P : Type} (env : DetectEnv P)
    (min_confidence : ℚ) (patch : P) (bbox : BBox) (m : SearchResult)
    (c : Candidate P) (h : processMatch env min_confidence patch bbox m = some c) :
    min_confidence ≤ m.similarity ∧
    c.confidence = (if c.shape_valid then min 1 (min 1 (m.similarity * 1.18) + 0.02)
                    else min 1 (m.similarity * 1.18)) := by
  simp only [processMatch] at h
  by_cases hlt : m.similarity < min_confidence
  · rw [if_pos hlt] at h
    exact absurd h (by simp)
  · rw [if_neg hlt] at h
    obtain rfl := (Option.some.inj h).symm
    refine ⟨le_of_not_lt hlt, ?_⟩
    by_cases hv : ShapeValidator.validate (env.aspect patch)
        (m.metadata.shape_ratio.getD (env.aspect patch))
        (m.metadata.shape_tolerance.getD 0.15) <;>
      simp [hv]

/-- A detection environment over Nat-labelled patches with trivial
collaborators, used as a concrete test input. -/
def natEnv : DetectEnv Nat :=
  { encode := fun _ => none, aspect := fun _ => 1, ocr := fun _ _ => (false, []) }

/-- A concrete search match with raw similarity 0.70 used to witness C6. -/
def c6Match : SearchResult :=
  { product_id := "A", similarity := 0.7, metadata := testMeta,
    shape_ratio := 1, index_id := 0 }

/-- The candidate `processMatch` produces from `c6Match` at
min_confidence 0.65: shape-valid (expected falls back to the actual
ratio), confidence min(1, 0.7·1.18) + 0.02 = 0.846. -/
def c6Cand : Candidate Nat :=
  ⟨"A", "n", 0.846, ⟨0, 0, 224, 224⟩, true, [], 0⟩

/-- Claim C6, witness: the scenario candidate with raw similarity 0.70
(≥ min_confidence 0.65) and shape_valid = true receives confidence
exactly 0.846. -/
theorem C6_witness :
    c6Cand.confidence = 0.846 ∧ c6Cand.shape_valid = true ∧
    (0.65 : ℚ) ≤ c6Match.similarity ∧
    c6Cand.confidence =
      (if c6Cand.shape_valid then min 1 (min 1 (c6Match.similarity * 1.18) + 0.02)
       else min 1 (c6Match.similarity * 1.18)) := by
  have h : processMatch natEnv (0.65 : ℚ) 0 ⟨0, 0, 224, 224⟩ c6Match = some c6Cand := by
    norm_num [processMatch, natEnv, c6Match, c6Cand, testMeta, ShapeValidator.validate]
  have hmain := C6_confidence_formula natEnv (0.65 : ℚ) 0 ⟨0, 0, 224, 224⟩ c6Match c6Cand h
  exact ⟨rfl, rfl, hmain.1, hmain.2⟩

/- ------------------------------------------------------------------ -/
/- Claims C7, C10: per-product fusion and the OCR keyword gate         -/
/- ------------------------------------------------------------------ -/

/-- Every cluster in the list after inserting a candidate carries the
product id, name and keywords of either that candidate (fresh cluster)
or one of the pre-existing clusters (merging does not change them). -/
theorem mem_insertCandidate {P : Type} {c : Candidate P} {cl' : Cluster} :
    ∀ {cls : List Cluster}, cl' ∈ insertCandidate c cls →
      (cl'.product_id = c.product_id ∧ cl'.product_name = c.product_name ∧
        cl'.keywords = c.keywords) ∨
      (∃ cl ∈ cls, cl'.product_id = cl.product_id ∧
        cl'.product_name = cl.product_name ∧ cl'.keywords = cl.keywords) := by
  intro cls
  induction cls with
  | nil =>
    intro h
    simp only [insertCandidate, List.mem_singleton] at h
    subst h
    exact Or.inl ⟨rfl, rfl, rfl⟩
  | cons a t ih =>
    intro h
    simp only [insertCandidate] at h
    by_cases hov : bboxOverlap c.bbox a.bbox
    · rw [if_pos hov] at h
      rcases List.mem_cons.mp h with rfl | h2
      · exact Or.inr ⟨a, List.mem_cons_self a t, rfl, rfl, rfl⟩
      · exact Or.inr ⟨cl', List.mem_cons_of_mem a h2, rfl, rfl, rfl⟩
    · rw [if_neg hov] at h
      rcases List.mem_cons.mp h with rfl | h2
      · exact Or.inr ⟨cl', List.mem_cons_self cl' t, rfl, rfl, rfl⟩
      · rcases ih h2 with h1 | ⟨cl, hcl, h3⟩
        · exact Or.inl h1
        · exact Or.inr ⟨cl, List.mem_cons_of_mem a hcl, h3⟩

/-- Provenance through the clustering fold, generalized over the
accumulator. -/
theorem buildClusters_aux {P : Type} (cands : List (Candidate P)) :
    ∀ (acc : List Cluster) (cl' : Cluster),
      cl' ∈ cands.foldl (fun cls c => insertCandidate c cls) acc →
      (∃ c ∈ cands, cl'.product_id = c.product_id ∧
        cl'.product_name = c.product_name ∧ cl'.keywords = c.keywords) ∨
      (∃ cl ∈ acc, cl'.product_id = cl.product_id ∧
        cl'.product_name = cl.product_name ∧ cl'.keywords = cl.keywords) := by
  induction cands with
  | nil =>
    intro acc cl' h
    exact Or.inr ⟨cl', by simpa using h, rfl, rfl, rfl⟩
  | cons c rest ih =>
    intro acc cl' h
    rw [List.foldl_cons] at h
    rcases ih (insertCandidate c acc) cl' h with ⟨d, hd, h3⟩ | ⟨cl, hcl, h3⟩
    · exact Or.inl ⟨d, List.mem_cons_of_mem c hd, h3⟩
    · rcases mem_insertCandidate hcl with h4 | ⟨cl2, hcl2, h4⟩
      · exact Or.inl ⟨c, List.mem_cons_self c rest,
          h3.1.trans h4.1, h3.2.1.trans h4.2.1, h3.2.2.trans h4.2.2⟩
      · exact Or.inr ⟨cl2, hcl2,
          h3.1.trans h4.1, h3.2.1.trans h4.2.1, h3.2.2.trans h4.2.2⟩

/-- Every cluster produced by `buildClusters` carries the product id,
name and keywords of one of the input candidates (the seed of the
cluster). -/
theorem buildClusters_provenance {P : Type} (cands : List (Candidate P))
    (cl' : Cluster) (h : cl' ∈ buildClusters cands) :
    ∃ c ∈ cands, cl'.product_id = c.product_id ∧
      cl'.product_name = c.product_name ∧ cl'.keywords = c.keywords := by
  rcases buildClusters_aux cands [] cl' h with h1 | ⟨cl, hcl, -⟩
  · exact h1
  · simp at hcl

/-- The first-occurrence key list has no duplicates. -/
theorem firstDedup_nodup (l : List String) : (firstDedup l).Nodup := by
  induction l with
  | nil => simp [firstDedup]
  | cons k rest ih =>
    rw [firstDedup]
    refine List.Nodup.cons ?_ (List.Nodup.filter _ ih)
    intro hmem
    exact absurd (List.of_mem_filter hmem) (by simp)

/-- What `processGroup` emits: the fields of the (stably sorted) best
cluster, whose confidence is maximal among the group's clusters; the
final confidence gets +0.05 capped at 1 exactly when text verification
succeeded; and an empty keyword list on the best cluster forces
`text_verified = false` with no matched keywords (the OCR branch is
gated on a non-empty keyword list). -/
theorem processGroup_spec {P : Type} (env : DetectEnv P) (W H : Int)
    (cands : List (Candidate P)) (r : DetectionResult)
    (h : processGroup env W H cands = some r) :
    ∃ cl, cl ∈ buildClusters cands ∧
      (∀ cl' ∈ buildClusters cands, cl'.confidence ≤ cl.confidence) ∧
      r.product_id = cl.product_id ∧
      r.product_name = cl.product_name ∧
      r.shape_valid = cl.shape_valid ∧
      r.confidence = (if r.text_verified then min 1 (cl.confidence + 0.05)
                      else cl.confidence) ∧
      (cl.keywords = [] → r.text_verified = false ∧ r.matched_keywords = []) := by
  haveI instTot : IsTotal Cluster (fun a b : Cluster => b.confidence ≤ a.confidence) :=
    ⟨fun a b => (le_total b.confidence a.confidence)⟩
  haveI instTrans : IsTrans Cluster (fun a b : Cluster => b.confidence ≤ a.confidence) :=
    ⟨fun _ _ _ hab hbc => le_trans hbc hab⟩
  simp only [processGroup] at h
  rcases hs : List.insertionSort (fun a b : Cluster => b.confidence ≤ a.confidence)
      (buildClusters cands) with - | ⟨best, rest⟩
  · rw [hs] at h
    exact absurd h (by simp)
  · rw [hs] at h
    obtain rfl := (Option.some.inj h).symm
    have hperm := List.perm_insertionSort
      (fun a b : Cluster => b.confidence ≤ a.confidence) (buildClusters cands)
    rw [hs] at hperm
    refine ⟨best, hperm.subset (List.mem_cons_self best rest), ?_, rfl, rfl, rfl, rfl, ?_⟩
    · intro cl' hcl'
      rcases List.mem_cons.mp (hperm.symm.subset hcl') with rfl | hr
      · exact le_rfl
      · have hsorted := List.sorted_insertionSort
          (fun a b : Cluster => b.confidence ≤ a.confidence) (buildClusters cands)
        rw [hs] at hsorted
        exact (List.pairwise_cons.mp hsorted).1 cl' hr
    · intro hkw
      simp [hkw]

/-- `processGroup` over a product's filtered group emits that product's
id. -/
theorem processGroup_pid {P : Type} (env : DetectEnv P) (W H : Int)
    (pid : String) (cands : List (Candidate P)) (r : DetectionResult)
    (h : processGroup env W H (cands.filter (fun c => c.product_id = pid)) = some r) :
    r.product_id = pid := by
  obtain ⟨cl, hcl, -, hpid, -, -, -, -⟩ := processGroup_spec env W H _ r h
  obtain ⟨c, hc, hq, -, -⟩ := buildClusters_provenance _ cl hcl
  have hcp : c.product_id = pid := by
    have := (List.mem_filter.mp hc).2
    simpa using this
  rw [hpid, hq, hcp]

/-- Each emitted result comes from `processGroup` on its own product's
group. -/
theorem mem_fuse {P : Type} {env : DetectEnv P} {W H : Int}
    {cands : List (Candidate P)} {r : DetectionResult}
    (h : r ∈ fuse env W H cands) :
    processGroup env W H (cands.filter (fun c => c.product_id = r.product_id)) = some r := by
  unfold fuse at h
  obtain ⟨pid, hpid, hr⟩ := List.mem_filterMap.mp h
  have hrp : r.product_id = pid := processGroup_pid env W H pid cands r hr
  rw [hrp]
  exact hr

/-- Claim C7: a detection call returns at most one DetectionResult per
distinct product id, and each result is built from a maximal-confidence
cluster of its product's candidate group. -/
theorem C7_one_detection_per_product {P : Type} (env : DetectEnv P) (W H : Int)
    (cands : List (Candidate P)) :
    ((fuse env W H cands).map (fun r => r.product_id)).Nodup ∧
    ∀ r ∈ fuse env W H cands,
      ∃ cl ∈ buildClusters (cands.filter (fun c => c.product_id = r.product_id)),
        (∀ cl' ∈ buildClusters (cands.filter (fun c => c.product_id = r.product_id)),
          cl'.confidence ≤ cl.confidence) ∧
        r.product_name = cl.product_name ∧
        r.shape_valid = cl.shape_valid ∧
        r.confidence = (if r.text_verified then min 1 (cl.confidence + 0.05)
                        else cl.confidence) := by
  constructor
  · rw [fuse, List.map_filterMap]
    refine List.Nodup.filterMap ?_ (firstDedup_nodup _)
    intro a a' b hb hb'
    simp only [Option.map_eq_some', Option.mem_def] at hb hb'
    obtain ⟨r, hr, rfl⟩ := hb
    obtain ⟨r', hr', hbe⟩ := hb'
    have h1 := processGroup_pid env W H a cands r hr
    have h2 := processGroup_pid env W H a' cands r' hr'
    exact h1.symm.trans (hbe.symm.trans h2)
  · intro r hr
    obtain ⟨cl, hcl, hmax, -, hname, hsv, hconf, -⟩ :=
      processGroup_spec env W H _ r (mem_fuse hr)
    exact ⟨cl, hcl, hmax, hname, hsv, hconf⟩

/-- Concrete candidate list used to witness C7: two overlapping
candidates of product A and one of product B. -/
def c7Cands : List (Candidate Nat) :=
  [⟨"A", "n", 0.8, ⟨0, 0, 10, 10⟩, true, ["k"], 0⟩,
   ⟨"A", "n", 0.9, ⟨5, 5, 10, 10⟩, true, ["k"], 1⟩,
   ⟨"B", "m", 0.7, ⟨0, 0, 10, 10⟩, false, [], 2⟩]

/-- Claim C7, witness: the theorem applied to the concrete candidate
list: the emitted product ids are pairwise distinct. -/
theorem C7_witness :
    ((fuse natEnv 100 100 c7Cands).map (fun r => r.product_id)).Nodup :=
  (C7_one_detection_per_product natEnv 100 100 c7Cands).1

/-- Claim C10: if every candidate of a product carries an empty keyword
list (as happens when the product's configured keyword list is empty),
then every DetectionResult emitted for that product has
`text_verified = false` (the OCR branch is gated on a non-empty keyword
list), and such a detection never satisfies `should_learn`, for any
enabled flag and threshold — so the product can never gain auto-learned
references. -/
theorem C10_no_keywords_no_learning {P : Type} (env : DetectEnv P) (W H : Int)
    (cands : List (Candidate P)) (pid : String)
    (hkw : ∀ c ∈ cands, c.product_id = pid → c.keywords = []) :
    ∀ r ∈ fuse env W H cands, r.product_id = pid →
      r.text_verified = false ∧ r.matched_keywords = [] ∧
      ∀ enabled threshold, AutoLearner.should_learn enabled threshold r = false := by
  intro r hr hrp
  obtain ⟨cl, hcl, -, -, -, -, -, hgate⟩ :=
    processGroup_spec env W H _ r (mem_fuse hr)
  obtain ⟨c, hc, -, -, hkws⟩ := buildClusters_provenance _ cl hcl
  have hcpid : c.product_id = pid := by
    have := (List.mem_filter.mp hc).2
    simp only [decide_eq_true_eq] at this
    rw [this, hrp]
  have hkc : c.keywords = [] := hkw c (List.mem_filter.mp hc).1 hcpid
  obtain ⟨htv, hmk⟩ := hgate (hkws.trans hkc)
  refine ⟨htv, hmk, fun enabled threshold => ?_⟩
  simp [AutoLearner.should_learn, htv]

/-- Concrete candidate list used to witness C10: one high-confidence,
shape-valid candidate of a product with no keywords. -/
def c10Cands : List (Candidate Nat) :=
  [⟨"A", "n", 0.95, ⟨0, 0, 10, 10⟩, true, [], 0⟩]

/-- The DetectionResult the fusion stage emits for `c10Cands`. -/
def c10Res : DetectionResult :=
  ⟨"A", "n", 0.95, ⟨0, 0, 10, 10⟩, false, true, []⟩

/-- Claim C10, witness: the concrete keyword-less detection is emitted
with `text_verified = false` and fails `should_learn` even though its
confidence 0.95 exceeds the default learning threshold 0.9 with
learning enabled. -/
theorem C10_witness :
    c10Res.text_verified = false ∧
    AutoLearner.should_learn true 0.9 c10Res = false := by
  have hmem : c10Res ∈ fuse natEnv 100 100 c10Cands := by
    norm_num [fuse, firstDedup, processGroup, buildClusters, insertCandidate,
      newCluster, List.insertionSort, List.orderedInsert, c10Cands, c10Res, natEnv]
  have h := C10_no_keywords_no_learning natEnv 100 100 c10Cands "A"
    (by intro c hc _
        simp only [c10Cands, List.mem_singleton] at hc
        subst hc
        rfl)
    c10Res hmem rfl
  exact ⟨h.1, h.2.2 true 0.9⟩

/- ------------------------------------------------------------------ -/
/- Claim C8: pruning cap of the auto-learner                           -/
/- ------------------------------------------------------------------ -/

/-- Removing a list of uids filters the metadata map down to the keys
outside that list. -/
theorem removeAll_metadata (uids : List Nat) :
    ∀ (s : ProductIndex),
      (removeAll s uids).metadata = s.metadata.filter (fun p => decide (p.1 ∉ uids)) := by
  induction uids with
  | nil =>
    intro s
    simp [removeAll]
  | cons u rest ih =>
    intro s
    rw [removeAll, ih]
    show (s.metadata.filter (fun p => decide (p.1 ≠ u))).filter
        (fun p => decide (p.1 ∉ rest)) = _
    rw [List.filter_filter]
    refine List.filter_congr ?_
    intro p _
    by_cases h1 : p.1 = u <;> by_cases h2 : p.1 ∈ rest <;> simp [h1, h2]

/-- Removing uids never changes the `next_id` counter. -/
theorem removeAll_next_id (uids : List Nat) :
    ∀ (s : ProductIndex), (removeAll s uids).next_id = s.next_id := by
  induction uids with
  | nil => intro s; rfl
  | cons u rest ih =>
    intro s
    rw [removeAll, ih]
    rfl

/-- What `prune_if_needed` does to one product's entries when the
metadata keys are distinct: the product's entry count becomes
min(count, max_refs), and every removed entry has a timestamp no newer
than any surviving entry of that product. -/
theorem prune_spec (max_refs : Nat) (pid : String) (t : ProductIndex)
    (hnodup : (t.metadata.map Prod.fst).Nodup) :
    (AutoLearner.prune_if_needed max_refs pid t).countFor pid =
      min (t.countFor pid) max_refs ∧
    ∀ p ∈ t.metadata, p.2.product_id = pid →
      p.1 ∉ (AutoLearner.prune_if_needed max_refs pid t).metadata.map Prod.fst →
      ∀ q ∈ (AutoLearner.prune_if_needed max_refs pid t).metadata,
        q.2.product_id = pid →
        entryTimestamp p ≤ entryTimestamp q := by
  haveI instTot : IsTotal (Nat × EntryMeta)
      (fun a b => entryTimestamp a ≤ entryTimestamp b) :=
    ⟨fun a b => le_total (entryTimestamp a) (entryTimestamp b)⟩
  haveI instTrans : IsTrans (Nat × EntryMeta)
      (fun a b => entryTimestamp a ≤ entryTimestamp b) :=
    ⟨fun _ _ _ hab hbc => le_trans hab hbc⟩
  set refs := t.metadata.filter (fun p => p.2.product_id = pid) with hrefs
  by_cases hcase : max_refs < refs.length
  · -- pruning fires
    set sorted := List.insertionSort
      (fun a b => entryTimestamp a ≤ entryTimestamp b) refs with hsorteddef
    set m := refs.length - max_refs with hm
    set removed := sorted.take m with hremdef
    set kept := sorted.drop m with hkeptdef
    have hsplit : removed ++ kept = sorted := List.take_append_drop m sorted
    have hperm : sorted.Perm refs := List.perm_insertionSort _ refs
    have hprune : AutoLearner.prune_if_needed max_refs pid t =
        removeAll t (removed.map Prod.fst) := by
      unfold AutoLearner.prune_if_needed AutoLearner.pruneList
      rw [← hrefs, if_pos hcase]
    have hfinal : (AutoLearner.prune_if_needed max_refs pid t).metadata =
        t.metadata.filter (fun p => decide (p.1 ∉ removed.map Prod.fst)) := by
      rw [hprune, removeAll_metadata]
    have hrn : (refs.map Prod.fst).Nodup :=
      List.Nodup.sublist (List.Sublist.map Prod.fst (List.filter_sublist _)) hnodup
    have hsn : (sorted.map Prod.fst).Nodup :=
      ((hperm.map Prod.fst).symm).nodup hrn
    have hdisj : ∀ p ∈ kept, p.1 ∉ removed.map Prod.fst := by
      intro p hp hmem
      rw [← hsplit, List.map_append] at hsn
      exact (List.nodup_append.mp hsn).2.2 hmem (List.mem_map_of_mem Prod.fst hp)
    have hkeptfilter : kept.filter (fun p => decide (p.1 ∉ removed.map Prod.fst)) = kept :=
      List.filter_eq_self.mpr (fun p hp => by simpa using hdisj p hp)
    have hremfilter :
        removed.filter (fun p => decide (p.1 ∉ removed.map Prod.fst)) = [] := by
      rw [List.filter_eq_nil_iff]
      intro p hp
      simpa using List.mem_map_of_mem Prod.fst hp
    have hsortedfilter :
        sorted.filter (fun p => decide (p.1 ∉ removed.map Prod.fst)) = kept := by
      rw [← hsplit, List.filter_append, hremfilter, hkeptfilter, List.nil_append]
    have hff : (AutoLearner.prune_if_needed max_refs pid t).metadata.filter
        (fun p => p.2.product_id = pid) =
        refs.filter (fun p => decide (p.1 ∉ removed.map Prod.fst)) := by
      rw [hfinal, List.filter_filter, hrefs, List.filter_filter]
      exact List.filter_congr (fun p _ => Bool.and_comm _ _)
    have hpermF : (refs.filter (fun p => decide (p.1 ∉ removed.map Prod.fst))).Perm kept := by
      have := hperm.symm.filter (fun p => decide (p.1 ∉ removed.map Prod.fst))
      rwa [hsortedfilter] at this
    constructor
    · show ((AutoLearner.prune_if_needed max_refs pid t).metadata.filter _).length = _
      rw [hff, hpermF.length_eq, hkeptdef, List.length_drop, hperm.length_eq]
      have hcount : t.countFor pid = refs.length := rfl
      rw [hcount]
      omega
    · intro p hp hppid hnot q hq hqpid
      have hqref : q ∈ refs.filter (fun p => decide (p.1 ∉ removed.map Prod.fst)) := by
        rw [← hff]
        exact List.mem_filter.mpr ⟨hq, by simpa using hqpid⟩
      have hqkept : q ∈ kept := hpermF.subset hqref
      have hpref : p ∈ refs := List.mem_filter.mpr ⟨hp, by simpa using hppid⟩
      have hpsorted : p ∈ sorted := hperm.symm.subset hpref
      have hprem : p ∈ removed := by
        rcases List.mem_append.mp (by rw [hsplit]; exact hpsorted) with h1 | h1
        · exact h1
        · exfalso
          refine hnot ?_
          rw [hfinal]
          refine List.mem_map_of_mem Prod.fst (List.mem_filter.mpr ⟨hp, ?_⟩)
          simpa using hdisj p h1
      have hsorted2 := List.sorted_insertionSort
        (fun a b => entryTimestamp a ≤ entryTimestamp b) refs
      rw [← hsorteddef, ← hsplit] at hsorted2
      exact ((List.pairwise_append.mp hsorted2).2.2) p hprem q hqkept
  · -- count within cap: pruning is a no-op
    have hprune : AutoLearner.prune_if_needed max_refs pid t = t := by
      unfold AutoLearner.prune_if_needed AutoLearner.pruneList
      rw [← hrefs, if_neg hcase]
      rfl
    rw [hprune]
    constructor
    · have hcount : t.countFor pid = refs.length := rfl
      rw [hcount, Nat.min_eq_left (le_of_not_lt hcase)]
    · intro p hp _ hnot
      exact absurd (List.mem_map_of_mem Prod.fst hp) hnot

/-- Claim C8: a successful `learn` call adds one reference for the
detection's product and then prunes, leaving exactly
min(previous count + 1, max_refs) ≤ max_refs entries for that product —
so after any sequence of learn calls the count never exceeds the cap —
and every pruned entry's timestamp (missing timestamps counting as 0,
i.e. oldest) is at most every surviving entry's, so the survivors are
the most-recently-timestamped ones.  The hypotheses state the index
invariants: the embedding has the configured dimension (it comes from
the encoder) and metadata keys are distinct and below `next_id`. -/
theorem C8_learn_prune (max_refs : Nat) (s : ProductIndex) (d : DetectionResult)
    (emb : List ℚ) (ratio now : ℚ) (ts : Nat)
    (hdim : emb.length = s.dimension)
    (hnodup : (s.metadata.map Prod.fst).Nodup)
    (hfresh : ∀ k ∈ s.metadata.map Prod.fst, k < s.next_id) :
    (AutoLearner.learn max_refs s d emb ratio ts now).1 = true ∧
    (AutoLearner.learn max_refs s d emb ratio ts now).2.countFor d.product_id =
      min (s.countFor d.product_id + 1) max_refs ∧
    (AutoLearner.learn max_refs s d emb ratio ts now).2.countFor d.product_id ≤
      max_refs ∧
    (∀ p ∈ (s.add_product d.product_id emb ratio
        (AutoLearner.learnMeta d.product_name d.confidence ts) now).2.metadata,
      p.2.product_id = d.product_id →
      p.1 ∉ (AutoLearner.learn max_refs s d emb ratio ts now).2.metadata.map Prod.fst →
      ∀ q ∈ (AutoLearner.learn max_refs s d emb ratio ts now).2.metadata,
        q.2.product_id = d.product_id →
        entryTimestamp p ≤ entryTimestamp q) ∧
    ((AutoLearner.learn max_refs s d emb ratio ts now).2.metadata.map Prod.fst).Nodup ∧
    (∀ k ∈ (AutoLearner.learn max_refs s d emb ratio ts now).2.metadata.map Prod.fst,
      k < (AutoLearner.learn max_refs s d emb ratio ts now).2.next_id) := by
  have hadd : s.add_product d.product_id emb ratio
      (AutoLearner.learnMeta d.product_name d.confidence ts) now =
      (some s.next_id,
       { dimension := s.dimension,
         vectors := s.vectors ++ [(s.next_id, emb)],
         metadata := s.metadata ++ [(s.next_id,
           ⟨d.product_id, ratio, AutoLearner.learnMeta d.product_name d.confidence ts,
            now⟩)],
         next_id := s.next_id + 1 }) := by
    simp only [ProductIndex.add_product]
    rw [if_pos hdim]
  set s1 : ProductIndex :=
    { dimension := s.dimension,
      vectors := s.vectors ++ [(s.next_id, emb)],
      metadata := s.metadata ++ [(s.next_id,
        ⟨d.product_id, ratio, AutoLearner.learnMeta d.product_name d.confidence ts,
         now⟩)],
      next_id := s.next_id + 1 } with hs1
  have hlearn : AutoLearner.learn max_refs s d emb ratio ts now =
      (true, AutoLearner.prune_if_needed max_refs d.product_id s1) := by
    simp only [AutoLearner.learn]
    rw [hadd]
  have hn1 : (s1.metadata.map Prod.fst).Nodup := by
    rw [hs1]
    simp only [List.map_append, List.map_cons, List.map_nil]
    rw [List.nodup_append]
    refine ⟨hnodup, List.nodup_singleton _, ?_⟩
    intro a ha hb
    simp only [List.mem_singleton] at hb
    subst hb
    exact absurd (hfresh _ ha) (lt_irrefl _)
  have hc1 : s1.countFor d.product_id = s.countFor d.product_id + 1 := by
    show (s1.metadata.filter _).length = _
    rw [hs1]
    simp [ProductIndex.countFor, List.filter_append]
  obtain ⟨hcount, hsurv⟩ := prune_spec max_refs d.product_id s1 hn1
  have hmeta : (AutoLearner.prune_if_needed max_refs d.product_id s1).metadata =
      s1.metadata.filter (fun p =>
        decide (p.1 ∉ (AutoLearner.pruneList max_refs d.product_id s1).map Prod.fst)) :=
    removeAll_metadata _ s1
  have hsub : ((AutoLearner.prune_if_needed max_refs d.product_id s1).metadata.map
      Prod.fst).Sublist (s1.metadata.map Prod.fst) := by
    rw [hmeta]
    exact List.Sublist.map Prod.fst (List.filter_sublist _)
  refine ⟨by rw [hlearn], ?_, ?_, ?_, ?_, ?_⟩
  · rw [hlearn]
    show (AutoLearner.prune_if_needed max_refs d.product_id s1).countFor d.product_id = _
    rw [hcount, hc1]
  · rw [hlearn]
    show (AutoLearner.prune_if_needed max_refs d.product_id s1).countFor d.product_id ≤ _
    rw [hcount]
    exact min_le_right _ _
  · intro p hp hppid hnot q hq hqpid
    rw [hadd] at hp
    rw [hlearn] at hnot hq
    exact hsurv p hp hppid hnot q hq hqpid
  · rw [hlearn]
    exact List.Nodup.sublist hsub hn1
  · rw [hlearn]
    intro k hk
    show k < (AutoLearner.prune_if_needed max_refs d.product_id s1).next_id
    have hnx : (AutoLearner.prune_if_needed max_refs d.product_id s1).next_id =
        s1.next_id := removeAll_next_id _ s1
    rw [hnx]
    have hk1 : k ∈ s1.metadata.map Prod.fst := hsub.subset hk
    rw [hs1] at hk1
    simp only [List.map_append, List.map_cons, List.map_nil, List.mem_append,
      List.mem_singleton] at hk1
    rcases hk1 with hk1 | rfl
    · exact lt_trans (hfresh k hk1) (Nat.lt_succ_self _)
    · exact Nat.lt_succ_self _

/-- A learned-reference metadata record with a given timestamp, used as
a concrete test input. -/
def c8Meta (t : Nat) : RefMeta :=
  { name := "n", keywords := [], shape_tolerance := none, shape_ratio := none,
    ref_id := "r", learned := true, source_confidence := none, timestamp := some t }

/-- A concrete index with two references of product p, timestamps 1 and
5, used to witness C8 with cap 2. -/
def c8Idx : ProductIndex :=
  { dimension := 1,
    vectors := [(0, [1]), (1, [1])],
    metadata := [(0, ⟨"p", 1, c8Meta 1, 0⟩), (1, ⟨"p", 1, c8Meta 5, 0⟩)],
    next_id := 2 }

/-- A concrete high-confidence detection of product p used to witness
C8. -/
def c8Det : DetectionResult := ⟨"p", "n", 0.95, ⟨0, 0, 1, 1⟩, true, true, []⟩

/-- Claim C8, witness: learning a third reference (timestamp 3) for
product p under cap 2 succeeds and leaves exactly min(2 + 1, 2) = 2
entries for p. -/
theorem C8_witness :
    (AutoLearner.learn 2 c8Idx c8Det [1] 1 3 0).1 = true ∧
    (AutoLearner.learn 2 c8Idx c8Det [1] 1 3 0).2.countFor c8Det.product_id =
      min (c8Idx.countFor c8Det.product_id + 1) 2 ∧
    (AutoLearner.learn 2 c8Idx c8Det [1] 1 3 0).2.countFor c8Det.product_id ≤ 2 := by
  have h := C8_learn_prune 2 c8Idx c8Det [1] 1 3 0 rfl (by decide) (by decide)
  exact ⟨h.1, h.2.1, h.2.2.1⟩
